import Mathlib

/-!
Verification model of the NewsAPI ingestion-and-scoring pipeline.

The Go sources are shallowly embedded: strings are modelled as `List Char`
(one entry per rune; Go's byte indexing and rune indexing agree on the ASCII
markers and separators the code manipulates), machine floats that only ever
carry decimal literals are modelled as exact rationals `ℚ`, and every network
or database effect is an explicit argument (an oracle function or a threaded
state value).  Each definition mirrors one Go function of the repository and
keeps its name.
-/

namespace NewsPipeline

/-! ## String primitives (models of the Go `strings` helpers used by the code) -/

/-- Model of `unicode.IsSpace` restricted to the characters Go's
`strings.TrimSpace` strips in practice (ASCII whitespace plus NEL and NBSP). -/
def goIsSpace (c : Char) : Bool :=
  c = ' ' || c = '\t' || c = '\n' || c = Char.ofNat 11 || c = Char.ofNat 12 ||
    c = '\r' || c = Char.ofNat 0x85 || c = Char.ofNat 0xA0

/-- Drop the maximal trailing run of whitespace, the second half of
`strings.TrimSpace`. -/
def dropTrailing : List Char → List Char
  | [] => []
  | c :: rest =>
    match dropTrailing rest with
    | [] => if goIsSpace c then [] else [c]
    | r => c :: r

/-- Model of `strings.TrimSpace`. -/
def goTrim (l : List Char) : List Char :=
  dropTrailing (l.dropWhile goIsSpace)

/-- `strings.TrimSpace` on `String`s. -/
def goTrimS (s : String) : String :=
  String.mk (goTrim s.toList)

/-- Model of `strings.ToLower` (per-rune; every marker involved is ASCII). -/
def goLower (l : List Char) : List Char :=
  l.map Char.toLower

/-- `strings.ToLower` on `String`s. -/
def goLowerS (s : String) : String :=
  String.mk (goLower s.toList)

/-- `true` when `pat` is an initial segment of `hay`: the test `strings.Index`
performs at each offset. -/
def leadsList : List Char → List Char → Bool
  | [], _ => true
  | _ :: _, [] => false
  | a :: as, b :: bs => a == b && leadsList as bs

/-- Scanning loop of `strings.Index`: first offset (counting from `i`)
at which `pat` starts in the remaining text. -/
def strIndexAux (pat : List Char) : List Char → Nat → Option Nat
  | [], i => if pat.isEmpty then some i else none
  | c :: rest, i =>
    if leadsList pat (c :: rest) then some i else strIndexAux pat rest (i + 1)

/-- Model of `strings.Index hay pat`. -/
def strIndex (hay pat : List Char) : Option Nat :=
  strIndexAux pat hay 0

/-- `true` when the text contains a CR immediately followed by an LF. -/
def hasCRLF : List Char → Bool
  | [] => false
  | c :: rest => (c = '\r' && rest.head? = some '\n') || hasCRLF rest

/-- Model of `strings.ReplaceAll text "\r\n" "\n"` (non-overlapping
left-to-right replacement). -/
def replaceCRLF : List Char → List Char
  | [] => []
  | [c] => [c]
  | c1 :: c2 :: rest =>
    if c1 = '\r' ∧ c2 = '\n' then '\n' :: replaceCRLF rest
    else c1 :: replaceCRLF (c2 :: rest)

/-- Numeric value of a run of decimal digits. -/
def digitsVal (ds : List Char) : Nat :=
  ds.foldl (fun acc c => acc * 10 + (c.toNat - 48)) 0

/-- Syntactic phase of `strconv.ParseFloat` on the decimal grammar
`[+-] digits [. digits] [(e|E) [+-] digits]` (at least one mantissa digit, no
trailing input).  Returns the signed mantissa read as an integer, the number
of fraction digits, and the signed exponent, so that the value is
`mantissa / 10^frac * 10^exp`.  The `Inf`/`NaN`/hex forms of `ParseFloat` and
IEEE-754 rounding are outside this exact decimal model. -/
def parseDec (s : List Char) : Option (Int × Nat × Int) :=
  let signAndRest : Int × List Char :=
    match s with
    | '+' :: r => (1, r)
    | '-' :: r => (-1, r)
    | r => (1, r)
  let s1 := signAndRest.2
  let ds1 := s1.takeWhile Char.isDigit
  let s2 := s1.dropWhile Char.isDigit
  let fracAndRest : List Char × List Char :=
    match s2 with
    | '.' :: r => (r.takeWhile Char.isDigit, r.dropWhile Char.isDigit)
    | r => ([], r)
  let ds2 := fracAndRest.1
  let s3 := fracAndRest.2
  if ds1.length + ds2.length = 0 then none
  else
    let mant : Int := signAndRest.1 * (digitsVal (ds1 ++ ds2) : Int)
    match s3 with
    | [] => some (mant, ds2.length, 0)
    | e :: r =>
      if e = 'e' ∨ e = 'E' then
        let esignAndRest : Int × List Char :=
          match r with
          | '+' :: rr => (1, rr)
          | '-' :: rr => (-1, rr)
          | rr => (1, rr)
        let eds := esignAndRest.2.takeWhile Char.isDigit
        let r2 := esignAndRest.2.dropWhile Char.isDigit
        if eds.length = 0 ∨ r2 ≠ [] then none
        else some (mant, ds2.length, esignAndRest.1 * (digitsVal eds : Int))
      else none

/-- Exact rational value of a parsed decimal. -/
def decToRat (m : Int) (f : Nat) (e : Int) : ℚ :=
  (m : ℚ) / (10 : ℚ) ^ f * (10 : ℚ) ^ e

/-- Model of `strconv.ParseFloat` (value level). -/
def parseFloatL (s : List Char) : Option ℚ :=
  (parseDec s).map (fun t => decToRat t.1 t.2.1 t.2.2)

/-! ## `extractDescription` (BiasController.go lines 276-293) -/

/-- The literal marker `description:` searched for case-insensitively. -/
def markerL : List Char := ['d', 'e', 's', 'c', 'r', 'i', 'p', 't', 'i', 'o', 'n', ':']

/-- Model of `extractDescription`: trim the body, normalize CRLF to LF, find
the first case-insensitive occurrence of `description:`, and return everything
after it, trimmed; absent the marker, return the trimmed normalized body. -/
def extractDescriptionL (body : List Char) : List Char :=
  let text := goTrim body
  if text = [] then []
  else
    let normalized := replaceCRLF text
    let lower := goLower normalized
    match strIndex lower markerL with
    | none => goTrim normalized
    | some idx => goTrim (normalized.drop (idx + markerL.length))

/-- `extractDescription` on `String`s. -/
def extractDescription (body : String) : String :=
  String.mk (extractDescriptionL body.toList)

/-! ## JSON values and `extractScore` (BiasController.go lines 406-437)

A value produced by `json.Unmarshal` into `interface{}`: `nil`, `bool`,
`float64`, `string`, `[]interface{}` or `map[string]interface{}`.  Object
fields are kept as an association list with distinct keys (a Go map holds one
entry per key); numbers are exact rationals. -/

inductive Json where
  | null : Json
  | bool (b : Bool) : Json
  | num (q : ℚ) : Json
  | str (s : String) : Json
  | arr (items : List Json) : Json
  | obj (fields : List (String × Json)) : Json

mutual
/-- Model of `extractScore`.  On a map the three named keys `bias`,
`bias_score`, `score` are probed in order, then (fallback) every field value;
on a list every item; a number is returned directly and a string is parsed
with `ParseFloat` after trimming.  The Go map's fallback iteration order is
unspecified; the model uses field order (claim C10 shows success is
order-independent). -/
def Json.extractScore : Json → Option ℚ
  | .null => none
  | .bool _ => none
  | .num q => some q
  | .str s => parseFloatL (goTrim s.toList)
  | .arr items => extractScoreList items
  | .obj fields =>
    match probeKey fields "bias" with
    | some q => some q
    | none =>
      match probeKey fields "bias_score" with
      | some q => some q
      | none =>
        match probeKey fields "score" with
        | some q => some q
        | none => extractScoreVals fields

/-- One step of the named-key loop: `if val, ok := v[key]; ok { if score, ok
:= extractScore(val); ok { return score, true } }` — the score under field
`key`, when that field exists and yields one. -/
def probeKey : List (String × Json) → String → Option ℚ
  | [], _ => none
  | (k, v) :: rest, key => if k = key then v.extractScore else probeKey rest key

/-- The fallback loop over every map value, first success wins. -/
def extractScoreVals : List (String × Json) → Option ℚ
  | [] => none
  | (_, v) :: rest =>
    match v.extractScore with
    | some q => some q
    | none => extractScoreVals rest

/-- The loop over list items, first success wins. -/
def extractScoreList : List Json → Option ℚ
  | [] => none
  | v :: rest =>
    match v.extractScore with
    | some q => some q
    | none => extractScoreList rest
end

mutual
/-- `true` when the JSON value contains a numeric leaf or a numeric-string
leaf (w.r.t. the decimal `ParseFloat` grammar) at any nesting depth. -/
def Json.hasNumLeaf : Json → Bool
  | .null => false
  | .bool _ => false
  | .num _ => true
  | .str s => (parseDec (goTrim s.toList)).isSome
  | .arr items => hasNumLeafList items
  | .obj fields => hasNumLeafFields fields

/-- Some list item contains a numeric leaf. -/
def hasNumLeafList : List Json → Bool
  | [] => false
  | v :: rest => v.hasNumLeaf || hasNumLeafList rest

/-- Some field value contains a numeric leaf. -/
def hasNumLeafFields : List (String × Json) → Bool
  | [] => false
  | (_, v) :: rest => v.hasNumLeaf || hasNumLeafFields rest
end

/-! ## `parseBiasScore` (BiasController.go lines 385-404)

`json.Unmarshal`'s outcome on the raw body is passed explicitly: `some j`
when the body is valid JSON denoting `j`, `none` when unmarshalling fails. -/

/-- The bare-number fallback: `strconv.ParseFloat` on the trimmed body
(lines 398-403). -/
def parseBareFloat (trimmed : String) : Except String ℚ :=
  match parseFloatL trimmed.toList with
  | some v => .ok v
  | none => .error ("unable to parse bias score from response: " ++ trimmed)

/-- Model of `parseBiasScore`. -/
def parseBiasScore (raw : String) (unmarshal : Option Json) : Except String ℚ :=
  let trimmed := goTrimS raw
  if trimmed = "" then .error "empty response body"
  else
    match unmarshal with
    | some payload =>
      match payload.extractScore with
      | some q => .ok q
      | none => parseBareFloat trimmed
    | none => parseBareFloat trimmed

/-! ## `InferenceError`, `invokeBiasEndpoint`, `invokeBiasWithRetry`
(BiasController.go lines 37-57, 295-383) -/

/-- The typed inference failure carrying the HTTP status and message. -/
structure InferenceError where
  statusCode : Nat
  message : String
deriving DecidableEq, Repr

/-- `InferenceError.Retryable`: true exactly on 5xx statuses. -/
def InferenceError.retryable (e : InferenceError) : Bool :=
  500 ≤ e.statusCode && e.statusCode < 600

/-- An error returned by one invocation attempt: either a typed
`InferenceError` or any other error (transport failure, parse failure, …). -/
inductive InvokeError where
  | inference (e : InferenceError) : InvokeError
  | other (msg : String) : InvokeError
deriving DecidableEq, Repr

/-- `errors.As(err, &infErr) && infErr.Retryable()`. -/
def InvokeError.retryable : InvokeError → Bool
  | .inference e => e.retryable
  | .other _ => false

/-- Model of `invokeBiasEndpoint`'s response handling, given the HTTP
response the endpoint produced (`status`, raw `body`) and the unmarshal
outcome for the body.  A non-200 status yields the typed `InferenceError`;
a 200 body is parsed with `parseBiasScore`. -/
def invokeBiasEndpoint (status : Nat) (body : String) (unmarshal : Option Json) :
    Except InvokeError ℚ :=
  if status ≠ 200 then
    .error (.inference
      ⟨status, "huggingface returned status " ++ toString status ++ ": " ++ goTrimS body⟩)
  else
    match parseBiasScore body unmarshal with
    | .ok q => .ok q
    | .error e => .error (.other e)

/-- `maxAttempts` of `invokeBiasWithRetry`. -/
def maxAttempts : Nat := 3

/-- Oracle environment of one `invokeBiasWithRetry` call: the outcome of each
numbered invocation attempt, and whether the enclosing context is cancelled
during the backoff wait that follows the numbered attempt. -/
structure RetryEnv where
  endpoint : Nat → Except InvokeError ℚ
  cancelDuring : Nat → Bool

/-- Terminal outcome of `invokeBiasWithRetry`: a score, the last error
unchanged, or the context's cancellation error. -/
inductive RetryOutcome where
  | ok (score : ℚ) : RetryOutcome
  | err (e : InvokeError) : RetryOutcome
  | cancelled : RetryOutcome
deriving DecidableEq, Repr

/-- Loop body of `invokeBiasWithRetry` from attempt number `attempt`, with
`remaining` loop iterations left.  Returns the outcome, the number of
invocation attempts made, and the list of backoff waits performed (in
seconds, `1 <<< (attempt-1)` as in the source).  The `remaining = 0` case is
the loop-exhaustion return after the `for`; it is unreachable because a
retry is only scheduled when `attempt < maxAttempts`. -/
def retryGo (env : RetryEnv) (attempt : Nat) : Nat → RetryOutcome × Nat × List Nat
  | 0 => (.err (.other "failed to invoke Hugging Face after 3 attempts"), 0, [])
  | remaining + 1 =>
    match env.endpoint attempt with
    | .ok score => (.ok score, 1, [])
    | .error e =>
      if e.retryable = true ∧ attempt < maxAttempts then
        if env.cancelDuring attempt then (.cancelled, 1, [])
        else
          let rest := retryGo env (attempt + 1) remaining
          (rest.1, rest.2.1 + 1, (1 <<< (attempt - 1)) :: rest.2.2)
      else (.err e, 1, [])

/-- Model of `invokeBiasWithRetry`. -/
def invokeBiasWithRetry (env : RetryEnv) : RetryOutcome × Nat × List Nat :=
  retryGo env 1 maxAttempts

/-! ## Data model (models/NewsModel)

`id` and `created_at` come from the gorm `BaseModel`; UUIDs (both the row id
and `hash_val`) are modelled as naturals, with `0` standing for `uuid.Nil`.
`bias` is the float64 score, modelled as `ℚ`. -/

/-- One Article row (`models.NewsModel`). -/
structure Article where
  id : Nat
  createdAt : Nat
  title : String
  description : String
  link : String
  imageURL : String
  author : String
  tags : String
  hashVal : Nat
  s3Url : String
  bias : ℚ
deriving DecidableEq, Repr

/-- One raw provider article (`newsAPIArticle`), before normalization. -/
structure NewsApiArticle where
  title : String
  description : String
  link : String
  url : String
  imageURL : String
  urlToImage : String
  content : String
  creator : List String
  author : String
deriving DecidableEq, Repr

/-- `newsAPIArticle.ArticleURL`: the canonical `url` field wins over the
legacy `link` alias, both trimmed. -/
def NewsApiArticle.articleURL (a : NewsApiArticle) : String :=
  if goTrimS a.url ≠ "" then goTrimS a.url else goTrimS a.link

/-- `newsAPIArticle.ImageLink`: `urlToImage` wins over `image_url`. -/
def NewsApiArticle.imageLink (a : NewsApiArticle) : String :=
  if goTrimS a.urlToImage ≠ "" then goTrimS a.urlToImage else goTrimS a.imageURL

/-- `newsAPIArticle.PrimaryAuthor`: first non-empty creator entry (trimmed),
else the legacy single `author` field, trimmed. -/
def NewsApiArticle.primaryAuthor (a : NewsApiArticle) : String :=
  match a.creator.find? (fun c => goTrimS c ≠ "") with
  | some c => goTrimS c
  | none => goTrimS a.author

/-- `Title: ` (rendering constant of `buildArticleText`). -/
def titlePre : List Char := ['T', 'i', 't', 'l', 'e', ':', ' ']

/-- `\n\nDescription: ` (rendering constant of `buildArticleText`). -/
def descPre : List Char :=
  ['\n', '\n', 'D', 'e', 's', 'c', 'r', 'i', 'p', 't', 'i', 'o', 'n', ':', ' ']

/-- The fixed placeholder used when description and content are both blank. -/
def placeholderL : List Char := "Description unavailable.".toList

/-- The description `buildArticleText` renders: trimmed description, falling
back to trimmed raw content, then to the placeholder. -/
def articleDescL (a : NewsApiArticle) : List Char :=
  let d0 := goTrim a.description.toList
  let d1 := if d0 = [] then goTrim a.content.toList else d0
  if d1 = [] then placeholderL else d1

/-- Model of `buildArticleText`: `Title: %s\n\nDescription: %s\n`. -/
def buildArticleTextL (a : NewsApiArticle) : List Char :=
  titlePre ++ goTrim a.title.toList ++ descPre ++ articleDescL a ++ ['\n']

/-- `buildArticleText` on `String`s. -/
def buildArticleText (a : NewsApiArticle) : String :=
  String.mk (buildArticleTextL a)

/-! ## Ingestion (`fetchTopic`, FetchControllers.go lines 233-369)

The relational store is a list of Article rows; the uniqueness constraint on
`link` is reflected in the lookup-by-link.  The object-store put is assumed
to succeed (its failure aborts the whole run in the source and no claim is
about that path), and the presigned URL is a deterministic function of the
object key, standing in for the opaque minted URL. -/

/-- Per-topic ingestion summary. -/
structure TopicSummary where
  stored : Nat
  updated : Nat
  skipped : Nat
deriving DecidableEq, Repr

/-- Threaded ingestion state: the store contents, the index into the fresh
UUID supply, and the next row id the store will assign on insert. -/
structure IngestState where
  db : List Article
  uuidIdx : Nat
  nextId : Nat
deriving DecidableEq, Repr

/-- Oracle environment for one `fetchTopic` call: the content-source fetch
outcome, the duplicate row a concurrent ingestion inserted between our
lookup-miss and our insert (index-per-candidate; `none` = no race), and the
supply of fresh UUID values `uuid.NewRandom` returns (all nonzero). -/
structure IngestEnv where
  fetched : Except String (List NewsApiArticle)
  race : Nat → Option Article
  uuids : Nat → Nat

/-- `uuid.NewRandom()`: take the next value of the supply. -/
def mintUuid (env : IngestEnv) (st : IngestState) : Nat × IngestState :=
  (env.uuids st.uuidIdx, { st with uuidIdx := st.uuidIdx + 1 })

/-- The derived object key `{tag}:{uuid}.txt`. -/
def objectKey (tag : String) (hash : Nat) : String :=
  tag ++ ":" ++ toString hash ++ ".txt"

/-- The minted time-limited retrieval URL for an object key (deterministic
stand-in for `PresignGetObject`). -/
def presignUrl (key : String) : String :=
  "https://s3.presigned/" ++ key

/-- `SELECT ... WHERE link = ? LIMIT 1` (`First` under the unique index). -/
def dbLookup (db : List Article) (link : String) : Option Article :=
  db.find? (fun a => a.link = link)

/-- gorm `Save`: update the row with this primary key, creating it if the
store does not hold it (the race-reconciliation path saves a row read from a
concurrent insert). -/
def dbSave (db : List Article) (a : Article) : List Article :=
  if db.any (fun b => b.id = a.id) then
    db.map (fun b => if b.id = a.id then a else b)
  else db ++ [a]

/-- Outcome class of one candidate inside the `fetchTopic` loop. -/
inductive StepOutcome where
  | skipped : StepOutcome
  | stored : StepOutcome
  | updated : StepOutcome
deriving DecidableEq, Repr

/-- One iteration of the `fetchTopic` candidate loop (source lines 248-366):
skip on empty normalized link or title; on a link hit reuse the row's
`hash_val` (minting one only when it is Nil), overwrite the object, re-mint
the URL, refresh the mutable fields and save; on a miss mint a fresh UUID,
write the object, and insert — reconciling against the concurrently inserted
row when the unique constraint fires.  Object-store writes succeed in the
model (their failure aborts the run and no counted outcome is produced). -/
def processCandidate (env : IngestEnv) (st : IngestState) (tag : String) (i : Nat)
    (art : NewsApiArticle) : IngestState × StepOutcome :=
  let link := art.articleURL
  let title := goTrimS art.title
  if link = "" ∨ title = "" then (st, .skipped)
  else
    match dbLookup st.db link with
    | some existing =>
      let minted := if existing.hashVal = 0 then mintUuid env st else (existing.hashVal, st)
      let hash := minted.1
      let st1 := minted.2
      let url := presignUrl (objectKey tag hash)
      let row := { existing with
        title := title
        description := art.description
        imageURL := art.imageLink
        author := art.primaryAuthor
        tags := tag
        hashVal := hash
        s3Url := url }
      ({ st1 with db := dbSave st1.db row }, .updated)
    | none =>
      let minted := mintUuid env st
      let hash := minted.1
      let st1 := minted.2
      let url := presignUrl (objectKey tag hash)
      match env.race i with
      | some dup =>
        let row := { dup with
          title := title
          description := art.description
          imageURL := art.imageLink
          author := art.primaryAuthor
          tags := tag
          hashVal := hash
          s3Url := url }
        ({ st1 with db := dbSave st1.db row }, .updated)
      | none =>
        let record : Article :=
          { id := st1.nextId
            createdAt := st1.nextId
            title := title
            description := art.description
            link := link
            imageURL := art.imageLink
            author := art.primaryAuthor
            tags := tag
            hashVal := hash
            s3Url := url
            bias := 0 }
        ({ st1 with db := st1.db ++ [record], nextId := st1.nextId + 1 }, .stored)

/-- The candidate loop with its running summary (`i` is the source index,
consumed by the race oracle). -/
def fetchLoop (env : IngestEnv) (tag : String) :
    List NewsApiArticle → Nat → IngestState → TopicSummary → IngestState × TopicSummary
  | [], _, st, acc => (st, acc)
  | art :: rest, i, st, acc =>
    let step := processCandidate env st tag i art
    let acc' :=
      match step.2 with
      | .skipped => { acc with skipped := acc.skipped + 1 }
      | .stored => { acc with stored := acc.stored + 1 }
      | .updated => { acc with updated := acc.updated + 1 }
    fetchLoop env tag rest (i + 1) step.1 acc'

/-- Model of `fetchTopic`: reject an empty topic, fetch the candidates
(propagating the fetch failure), cap them at `maxArticles` (the source breaks
out of the loop at `index >= cfg.MaxArticles` when the cap is positive), and
run the candidate loop. -/
def fetchTopic (env : IngestEnv) (maxArticles : Nat) (topic : String)
    (st : IngestState) : Except String (IngestState × TopicSummary) :=
  let trimmed := goTrimS topic
  if trimmed = "" then .error "topic cannot be empty"
  else
    match env.fetched with
    | .error e => .error ("failed to fetch news for topic " ++ trimmed ++ ": " ++ e)
    | .ok articles =>
      let tag := goLowerS trimmed
      let capped := if 0 < maxArticles then articles.take maxArticles else articles
      .ok (fetchLoop env tag capped 0 st ⟨0, 0, 0⟩)

/-- `maxArticlesPerTopic` (the default candidate cap). -/
def maxArticlesPerTopic : Nat := 5

/-! ## Scoring (`ProcessBiasForArticles`, BiasController.go lines 83-176) -/

/-- One recorded per-article failure `{id, title, reason}`. -/
structure FailureRec where
  id : Nat
  title : String
  reason : String
deriving DecidableEq, Repr

/-- The per-run scoring summary. -/
structure BiasProcessingResult where
  updated : Nat
  failed : Nat
  total : Nat
  failures : List FailureRec
deriving DecidableEq, Repr

/-- Oracle environment for one scoring run: the body download per retrieval
URL (`downloadArticleText`'s HTTP fetch), the terminal outcome of the bounded
retry invocation (`invokeBiasWithRetry`; C2 verifies that policy separately),
and the store-write failure oracle per row id and score (`none` = the
`Update("bias", …)` succeeds). -/
structure BiasEnv where
  download : String → Except String String
  invoke : String → Except String ℚ
  writeErr : Nat → ℚ → Option String

/-- `UPDATE … SET bias = score WHERE id = ?`. -/
def updateBiasDb (db : List Article) (id : Nat) (score : ℚ) : List Article :=
  db.map (fun a => if a.id = id then { a with bias := score } else a)

/-- The per-article body of the `ProcessBiasForArticles` loop: the updated
store and, on failure, the recorded reason.  Mirrors the source order: empty
retrieval URL, then download (whose result is `extractDescription` of the
body), then empty description, then inference, then the store write. -/
def processOne (env : BiasEnv) (db : List Article) (a : Article) :
    List Article × Option String :=
  if goTrimS a.s3Url = "" then (db, some "missing s3 url")
  else
    match env.download a.s3Url with
    | .error e => (db, some ("download failed: " ++ e))
    | .ok body =>
      let description := extractDescription body
      if description = "" then (db, some "description is empty")
      else
        match env.invoke description with
        | .error e => (db, some ("huggingface invocation failed: " ++ e))
        | .ok score =>
          match env.writeErr a.id score with
          | some e => (db, some ("failed to update bias: " ++ e))
          | none => (updateBiasDb db a.id score, none)

/-- Accumulation step of the `ProcessBiasForArticles` loop: a failed article
appends its ordered failure record and bumps `failed`; a scored one bumps
`updated`. -/
def pbStep (env : BiasEnv) (acc : List Article × BiasProcessingResult)
    (a : Article) : List Article × BiasProcessingResult :=
  let step := processOne env acc.1 a
  match step.2 with
  | some reason =>
    (step.1, { acc.2 with
      failed := acc.2.failed + 1
      failures := acc.2.failures ++ [⟨a.id, a.title, reason⟩] })
  | none => (step.1, { acc.2 with updated := acc.2.updated + 1 })

/-- Model of `ProcessBiasForArticles`: process every input article
independently, accumulating `updated`/`failed` and the ordered failure
records; `total` is the input count.  (The source returns an error only when
the store handle is nil, which the model's explicit store excludes.) -/
def processBiasForArticles (env : BiasEnv) (db : List Article)
    (articles : List Article) : List Article × BiasProcessingResult :=
  articles.foldl (pbStep env) (db, ⟨0, 0, articles.length, []⟩)

/-- Response shape of the scoring trigger. -/
inductive ScoreResponse where
  | ok (updated failed total : Nat) (failedItems : List FailureRec) : ScoreResponse
  | badRequest (msg : String) : ScoreResponse
deriving DecidableEq, Repr

/-- Selection and response of the default scoring entry point
(`GetBiasScores`, lines 178-249): restrict to `bias = 0` unless `force`,
cap at `limit` when positive, score, and always answer with the per-item
summary (HTTP 200) — per-item failures never fail the request here. -/
def getBiasScores (env : BiasEnv) (db : List Article) (force : Bool)
    (limit : Nat) : List Article × BiasProcessingResult :=
  let selected0 := if force then db else db.filter (fun a => a.bias = 0)
  let selected := if 0 < limit then selected0.take limit else selected0
  processBiasForArticles env db selected

/-- The JSON body `GetBiasScores` answers with on a completed run. -/
def getBiasScoresResponse (env : BiasEnv) (db : List Article) (force : Bool)
    (limit : Nat) : ScoreResponse :=
  let res := (getBiasScores env db force limit).2
  .ok res.updated res.failed res.total res.failures

/-! ## On-demand query flow (`FetchNewsByQuery`, outputcontroller) -/

/-- Insert into a list kept in descending `created_at` order. -/
def insertByCreated (a : Article) : List Article → List Article
  | [] => [a]
  | b :: rest =>
    if b.createdAt ≤ a.createdAt then a :: b :: rest else b :: insertByCreated a rest

/-- `ORDER BY created_at DESC`. -/
def sortByCreatedDesc : List Article → List Article
  | [] => []
  | a :: rest => insertByCreated a (sortByCreatedDesc rest)

/-- Model of `fetchArticlesForTag`: rows whose lower-cased tag equals the
lower-cased trimmed topic, newest first, capped at `limit` when positive. -/
def fetchArticlesForTag (db : List Article) (topic : String) (limit : Nat) :
    List Article :=
  let lowered := goLowerS (goTrimS topic)
  if lowered = "" then []
  else
    let sorted := sortByCreatedDesc (db.filter (fun a => goLowerS a.tags = lowered))
    if 0 < limit then sorted.take limit else sorted

/-- Outcome of the on-demand query route. -/
inductive QueryOutcome where
  | badRequest (msg : String) : QueryOutcome
  | serverError (msg : String) (details : List FailureRec) : QueryOutcome
  | ok (topics : List (String × List Article)) : QueryOutcome
deriving DecidableEq, Repr

/-- Model of `FetchNewsByQuery`: require a topic, ingest it (propagating a
fatal ingestion error), load the topic's rows (capped at `cfg.MaxArticles`),
score exactly that set, upgrade any per-item failure to a whole-request error
carrying the failure list, and otherwise re-load the rows and answer with the
refreshed set keyed by the topic.  (Config loading and request parsing are
upstream glue; the trimmed query string is taken as given.) -/
def fetchNewsByQuery (ienv : IngestEnv) (benv : BiasEnv) (st : IngestState)
    (queryRaw : String) (maxArticles : Nat) : QueryOutcome :=
  let topic := goTrimS queryRaw
  if topic = "" then .badRequest "query parameter is required"
  else
    match fetchTopic ienv maxArticles topic st with
    | .error e =>
      .serverError ("failed to fetch news for topic " ++ topic ++ ": " ++ e) []
    | .ok fetched =>
      let articles := fetchArticlesForTag fetched.1.db topic maxArticles
      let scored := processBiasForArticles benv fetched.1.db articles
      if 0 < scored.2.failed then
        .serverError "failed to score bias for all articles" scored.2.failures
      else .ok [(topic, fetchArticlesForTag scored.1 topic maxArticles)]

/-! ## Supporting lemmas -/

/-- Each pass of the retry loop makes at most one attempt per remaining
iteration. -/
lemma retryGo_attempts_le (env : RetryEnv) :
    ∀ r attempt, (retryGo env attempt r).2.1 ≤ r := by
  intro r
  induction r with
  | zero => intro attempt; simp [retryGo]
  | succ n ih =>
    intro attempt
    rw [retryGo]
    cases h : env.endpoint attempt with
    | ok q => simp
    | error e =>
      simp only
      split
      · split
        · simp
        · have := ih (attempt + 1)
          simp only
          omega
      · simp

/-- `pbStep` counts each article exactly once and keeps `total` and the
failure-record count in lockstep with `failed`. -/
lemma pbStep_counts (env : BiasEnv) (acc : List Article × BiasProcessingResult)
    (a : Article) :
    (pbStep env acc a).2.updated + (pbStep env acc a).2.failed =
      acc.2.updated + acc.2.failed + 1 ∧
    (pbStep env acc a).2.failures.length + acc.2.failed =
      (pbStep env acc a).2.failed + acc.2.failures.length ∧
    (pbStep env acc a).2.total = acc.2.total := by
  rw [pbStep]
  cases (processOne env acc.1 a).2 with
  | none => simp; omega
  | some reason => simp; omega

/-- The fold underlying `ProcessBiasForArticles` preserves those counts. -/
lemma pbFold_counts (env : BiasEnv) :
    ∀ (articles : List Article) (acc : List Article × BiasProcessingResult),
      (articles.foldl (pbStep env) acc).2.updated +
          (articles.foldl (pbStep env) acc).2.failed =
        acc.2.updated + acc.2.failed + articles.length ∧
      (articles.foldl (pbStep env) acc).2.failures.length + acc.2.failed =
        (articles.foldl (pbStep env) acc).2.failed + acc.2.failures.length ∧
      (articles.foldl (pbStep env) acc).2.total = acc.2.total := by
  intro articles
  induction articles with
  | nil => intro acc; simp; omega
  | cons a rest ih =>
    intro acc
    have hstep := pbStep_counts env acc a
    have hrest := ih (pbStep env acc a)
    simp only [List.foldl_cons, List.length_cons] at *
    omega

/-- A trailing newline is removed by `dropTrailing`. -/
lemma list_length_dropWhile_le (p : Char → Bool) (l : List Char) :
    (List.dropWhile p l).length ≤ l.length := by
  induction l with
  | nil => simp
  | cons a t ih =>
    rw [List.dropWhile_cons]
    by_cases h : p a
    · rw [if_pos h]; simp; omega
    · rw [if_neg h]

/-- A trailing newline is removed by `dropTrailing`. -/
lemma dropTrailing_append_newline :
    ∀ l : List Char, dropTrailing (l ++ ['\n']) = dropTrailing l := by
  intro l
  induction l with
  | nil => rfl
  | cons c rest ih =>
    simp only [List.cons_append, dropTrailing, List.append_eq]
    rw [ih]

/-- `dropTrailing` does not look left of a non-empty trailing-stable tail. -/
lemma dropTrailing_append_stable :
    ∀ (x d : List Char), dropTrailing d = d → d ≠ [] → dropTrailing (x ++ d) = x ++ d := by
  intro x d hd hne
  induction x with
  | nil => simpa using hd
  | cons c x' ih =>
    simp only [List.cons_append, dropTrailing, List.append_eq]
    rw [ih]
    cases hx : x' ++ d with
    | nil => exact absurd (List.append_eq_nil.mp hx).2 hne
    | cons a tl => rfl

/-- `dropTrailing` is idempotent. -/
lemma dropTrailing_idem : ∀ l : List Char, dropTrailing (dropTrailing l) = dropTrailing l := by
  intro l
  induction l with
  | nil => rfl
  | cons c rest ih =>
    rw [dropTrailing]
    cases h : dropTrailing rest with
    | nil =>
      by_cases hc : goIsSpace c
      · rw [if_pos hc]; rfl
      · rw [if_neg hc]
        show dropTrailing [c] = [c]
        rw [dropTrailing]
        show (match dropTrailing [] with
          | [] => if goIsSpace c then [] else [c]
          | r => c :: r) = [c]
        rw [show dropTrailing ([] : List Char) = [] from rfl]
        simp [hc]
    | cons a tl =>
      have hstable : dropTrailing (a :: tl) = a :: tl := by rw [← h, ih, h]
      show dropTrailing (c :: a :: tl) = c :: a :: tl
      rw [dropTrailing, hstable]

/-- `goTrim` output is trailing-stable. -/
lemma dropTrailing_goTrim (l : List Char) : dropTrailing (goTrim l) = goTrim l := by
  rw [goTrim]; exact dropTrailing_idem _

/-- A leading-stable list stays leading-stable after `dropTrailing`. -/
lemma dropWhile_dropTrailing (y : List Char) (h : y.dropWhile goIsSpace = y) :
    (dropTrailing y).dropWhile goIsSpace = dropTrailing y := by
  cases y with
  | nil => rfl
  | cons a y' =>
    have ha : goIsSpace a = false := by
      by_contra hs
      rw [List.dropWhile_cons] at h
      simp only [Bool.not_eq_false] at hs
      rw [if_pos hs] at h
      have h1 := list_length_dropWhile_le goIsSpace y'
      have h2 := congrArg List.length h
      simp only [List.length_cons] at h2
      omega
    rw [dropTrailing]
    cases hd : dropTrailing y' with
    | nil =>
      rw [if_neg (by simp [ha])]
      simp [List.dropWhile_cons, ha]
    | cons b tl =>
      simp [List.dropWhile_cons, ha]

/-- `goTrim` output is leading-stable. -/
lemma dropWhile_goTrim (l : List Char) :
    (goTrim l).dropWhile goIsSpace = goTrim l := by
  rw [goTrim]
  exact dropWhile_dropTrailing _ (List.dropWhile_idempotent goIsSpace l)

/-- The last character surviving `dropTrailing` is not whitespace. -/
lemma dropTrailing_getLast_not_space :
    ∀ (l : List Char) (c : Char), (dropTrailing l).getLast? = some c →
      goIsSpace c = false := by
  intro l
  induction l with
  | nil => intro c h; simp [dropTrailing] at h
  | cons a rest ih =>
    intro c h
    rw [dropTrailing] at h
    cases hd : dropTrailing rest with
    | nil =>
      rw [hd] at h
      by_cases ha : goIsSpace a
      · rw [if_pos ha] at h; simp at h
      · rw [if_neg ha] at h
        simp at h
        rw [← h]
        simpa using ha
    | cons b tl =>
      rw [hd] at h
      simp only [List.getLast?_cons_cons] at h
      exact ih c (by rw [hd]; exact h)

/-- The last character of a `goTrim` output is not whitespace. -/
lemma goTrim_getLast_not_space (l : List Char) (c : Char)
    (h : (goTrim l).getLast? = some c) : goIsSpace c = false := by
  rw [goTrim] at h
  exact dropTrailing_getLast_not_space _ c h

/-- CRLF-freedom is preserved by appending CRLF-free parts whose seam does
not itself form a CRLF pair. -/
lemma hasCRLF_append_false :
    ∀ (x y : List Char), hasCRLF x = false → hasCRLF y = false →
      (x.getLast? ≠ some '\r' ∨ y.head? ≠ some '\n') →
      hasCRLF (x ++ y) = false := by
  intro x
  induction x with
  | nil => intro y _ hy _; simpa using hy
  | cons c x' ih =>
    intro y hx hy hb
    rw [List.cons_append, hasCRLF, Bool.or_eq_false_iff]
    rw [hasCRLF, Bool.or_eq_false_iff] at hx
    constructor
    · cases hx' : x' with
      | cons a tl =>
        have := hx.1
        rw [hx'] at this
        simpa using this
      | nil =>
        have hlast : (c :: x').getLast? = some c := by rw [hx']; rfl
        rcases hb with hb | hb
        · rw [hlast] at hb
          have : ¬(c = '\r') := fun hc => hb (by rw [hc])
          simp [hx', this]
        · have hyd : decide (y.head? = some '\n') = false := by simpa using hb
          simp only [hx', List.nil_append, hyd, Bool.and_false]
    · apply ih y hx.2 hy
      cases hx' : x' with
      | nil => left; simp
      | cons a tl =>
        rcases hb with hb | hb
        · left
          rw [hx'] at hb
          rw [List.getLast?_cons_cons] at hb
          exact hb
        · right; exact hb

/-- `ReplaceAll "\r\n" "\n"` leaves a CRLF-free text unchanged. -/
lemma replaceCRLF_of_no_crlf :
    ∀ (n : Nat) (l : List Char), l.length ≤ n → hasCRLF l = false →
      replaceCRLF l = l := by
  intro n
  induction n with
  | zero =>
    intro l hlen _
    cases l with
    | nil => rfl
    | cons c rest => simp at hlen
  | succ n ih =>
    intro l hlen hcr
    match l with
    | [] => rfl
    | [c] => rfl
    | c1 :: c2 :: rest =>
      rw [hasCRLF, Bool.or_eq_false_iff] at hcr
      have hpair : ¬(c1 = '\r' ∧ c2 = '\n') := by
        rintro ⟨h1, h2⟩
        have := hcr.1
        rw [h1, h2] at this
        simp at this
      rw [replaceCRLF, if_neg hpair]
      rw [ih (c2 :: rest) (by simp at hlen ⊢; omega) hcr.2]

/-- `ReplaceAll "\r\n" "\n"` distributes over an append whose left part does
not end in CR (no pair can straddle the seam). -/
lemma replaceCRLF_append_no_cr :
    ∀ (n : Nat) (x y : List Char), x.length ≤ n → x.getLast? ≠ some '\r' →
      replaceCRLF (x ++ y) = replaceCRLF x ++ replaceCRLF y := by
  intro n
  induction n with
  | zero =>
    intro x y hlen _
    match x with
    | [] => simp [replaceCRLF]
    | c :: rest => simp at hlen
  | succ n ih =>
    intro x y hlen hcr
    match x with
    | [] => simp [replaceCRLF]
    | [c] =>
      have hc : ¬(c = '\r') := by
        intro h
        exact hcr (by rw [h]; rfl)
      cases y with
      | nil => simp [replaceCRLF]
      | cons y1 y' =>
        have hnp : ¬(c = '\r' ∧ y1 = '\n') := fun hpair => hc hpair.1
        show replaceCRLF (c :: y1 :: y') = replaceCRLF [c] ++ replaceCRLF (y1 :: y')
        rw [show replaceCRLF [c] = [c] from rfl]
        rw [replaceCRLF, if_neg hnp]
        rfl
    | c1 :: c2 :: x' =>
      by_cases hp : c1 = '\r' ∧ c2 = '\n'
      · have hx'last : x'.getLast? ≠ some '\r' := by
          cases hx' : x' with
          | nil => simp
          | cons a tl =>
            rw [← hx']
            intro hsome
            apply hcr
            rw [List.getLast?_cons_cons]
            rw [hx'] at hsome ⊢
            rw [List.getLast?_cons_cons]
            exact hsome
        have e1 : replaceCRLF (c1 :: c2 :: (x' ++ y)) = '\n' :: replaceCRLF (x' ++ y) := by
          rw [replaceCRLF, if_pos hp]
        have e2 : replaceCRLF (c1 :: c2 :: x') = '\n' :: replaceCRLF x' := by
          rw [replaceCRLF, if_pos hp]
        calc replaceCRLF ((c1 :: c2 :: x') ++ y)
            = '\n' :: replaceCRLF (x' ++ y) := e1
          _ = '\n' :: (replaceCRLF x' ++ replaceCRLF y) := by
              rw [ih x' y (by simp at hlen ⊢; omega) hx'last]
          _ = replaceCRLF (c1 :: c2 :: x') ++ replaceCRLF y := by rw [e2]; rfl
      · have htail : (c2 :: x').getLast? ≠ some '\r' := by
          intro hsome
          apply hcr
          rw [List.getLast?_cons_cons]
          exact hsome
        have e1 : replaceCRLF (c1 :: c2 :: (x' ++ y)) =
            c1 :: replaceCRLF (c2 :: (x' ++ y)) := by
          rw [replaceCRLF, if_neg hp]
        have e2 : replaceCRLF (c1 :: c2 :: x') = c1 :: replaceCRLF (c2 :: x') := by
          rw [replaceCRLF, if_neg hp]
        calc replaceCRLF ((c1 :: c2 :: x') ++ y)
            = c1 :: replaceCRLF ((c2 :: x') ++ y) := e1
          _ = c1 :: (replaceCRLF (c2 :: x') ++ replaceCRLF y) := by
              rw [ih (c2 :: x') y (by simp at hlen ⊢; omega) htail]
          _ = replaceCRLF (c1 :: c2 :: x') ++ replaceCRLF y := by rw [e2]; rfl

/-- A pattern starts at the head of its own extension. -/
lemma leadsList_self_append : ∀ (p rest : List Char), leadsList p (p ++ rest) = true := by
  intro p rest
  induction p with
  | nil => rfl
  | cons a as ih => simp [leadsList, ih]

/-- A pattern starting inside `u ++ v` either starts (and fits) inside `u`,
or runs past `u` and continues with some suffix of itself at the head of
`v`. -/
lemma leadsList_append_true :
    ∀ (u p v : List Char), leadsList p (u ++ v) = true →
      leadsList p u = true ∨
        (u.length < p.length ∧ leadsList (p.drop u.length) v = true) := by
  intro u
  induction u with
  | nil =>
    intro p v h
    cases p with
    | nil => left; rfl
    | cons a ps => right; exact ⟨by simp, h⟩
  | cons b us ih =>
    intro p v h
    cases p with
    | nil => left; rfl
    | cons a ps =>
      rw [List.cons_append, leadsList, Bool.and_eq_true] at h
      rcases ih ps v h.2 with hl | ⟨hlen, hlead⟩
      · left
        rw [leadsList, Bool.and_eq_true]
        exact ⟨h.1, hl⟩
      · right
        refine ⟨by simp; omega, ?_⟩
        simpa using hlead

/-- The marker contains no newline. -/
lemma newline_not_mem_marker : '\n' ∉ markerL := by decide

/-- A marker occurrence cannot run past a list into a newline: if the marker
starts at the head of `u ++ '\n' :: w`, it fits inside `u`. -/
lemma leads_marker_stops_at_newline (u w : List Char)
    (h : leadsList markerL (u ++ '\n' :: w) = true) :
    leadsList markerL u = true := by
  rcases leadsList_append_true u markerL ('\n' :: w) h with hl | ⟨hlen, hlead⟩
  · exact hl
  · exfalso
    cases hdrop : markerL.drop u.length with
    | nil => rw [hdrop] at hlead; simp [List.length_drop] at hdrop; omega
    | cons a tl =>
      rw [hdrop] at hlead
      rw [leadsList, Bool.and_eq_true] at hlead
      have ha : a = '\n' := by simpa using hlead.1
      have hmem : a ∈ markerL := by
        have : a ∈ markerL.drop u.length := by rw [hdrop]; exact List.mem_cons_self a tl
        exact List.mem_of_mem_drop this
      rw [ha] at hmem
      exact newline_not_mem_marker hmem

/-- A failed scan means the pattern starts at no offset. -/
lemma strIndexAux_none_no_lead (p : List Char) (hp : p ≠ []) :
    ∀ (l : List Char) (i : Nat), strIndexAux p l i = none →
      ∀ k, leadsList p (l.drop k) = false := by
  intro l
  induction l with
  | nil =>
    intro i _ k
    rw [List.drop_nil]
    cases p with
    | nil => exact absurd rfl hp
    | cons a ps => rfl
  | cons c rest ih =>
    intro i h k
    rw [strIndexAux] at h
    by_cases hl : leadsList p (c :: rest) = true
    · rw [if_pos hl] at h; exact absurd h (by simp)
    · rw [if_neg hl] at h
      cases k with
      | zero => simpa using hl
      | succ k' => exact ih (i + 1) h k'

/-- A newline-free pattern found at the head of a lowered CRLF-normalized
text is already at the head of the lowered original: the replacement only
deletes CRs that precede an emitted newline, which the pattern cannot
contain. -/
lemma leadsList_lower_replaceCRLF :
    ∀ (n : Nat) (u p : List Char), u.length ≤ n → '\n' ∉ p →
      leadsList p (goLower (replaceCRLF u)) = true →
      leadsList p (goLower u) = true := by
  intro n
  induction n with
  | zero =>
    intro u p hlen _ h
    match u with
    | [] => exact h
    | c :: rest => simp at hlen
  | succ n ih =>
    intro u p hlen hnp h
    match u with
    | [] => exact h
    | [c] => exact h
    | c1 :: c2 :: rest =>
      by_cases hp : c1 = '\r' ∧ c2 = '\n'
      · cases p with
        | nil => rfl
        | cons a p' =>
          exfalso
          rw [show replaceCRLF (c1 :: c2 :: rest) = '\n' :: replaceCRLF rest from by
            rw [replaceCRLF, if_pos hp]] at h
          rw [show goLower ('\n' :: replaceCRLF rest) =
              '\n' :: goLower (replaceCRLF rest) from by simp [goLower]] at h
          rw [leadsList, Bool.and_eq_true] at h
          have ha : a = '\n' := by simpa using h.1
          apply hnp
          rw [← ha]
          exact List.mem_cons_self a p'
      · cases p with
        | nil => rfl
        | cons a p' =>
          rw [show replaceCRLF (c1 :: c2 :: rest) = c1 :: replaceCRLF (c2 :: rest) from by
            rw [replaceCRLF, if_neg hp]] at h
          rw [show goLower (c1 :: replaceCRLF (c2 :: rest)) =
              c1.toLower :: goLower (replaceCRLF (c2 :: rest)) from by simp [goLower]] at h
          rw [leadsList, Bool.and_eq_true] at h
          have h2 := ih (c2 :: rest) p' (by simp at hlen ⊢; omega)
            (fun hm => hnp (List.mem_cons_of_mem a hm)) h.2
          rw [show goLower (c1 :: c2 :: rest) = c1.toLower :: goLower (c2 :: rest) from by
            simp [goLower]]
          rw [leadsList, Bool.and_eq_true]
          exact ⟨h.1, h2⟩

/-- If the lowered text contains no marker occurrence at any offset, neither
does the lowered CRLF-normalized text. -/
lemma noOccLow_replaceCRLF :
    ∀ (n : Nat) (u : List Char), u.length ≤ n →
      (∀ k, leadsList markerL ((goLower u).drop k) = false) →
      ∀ k, leadsList markerL ((goLower (replaceCRLF u)).drop k) = false := by
  intro n
  induction n with
  | zero =>
    intro u hlen h k
    match u with
    | [] => exact h k
    | c :: rest => simp at hlen
  | succ n ih =>
    intro u hlen h k
    match u with
    | [] => exact h k
    | [c] => exact h k
    | c1 :: c2 :: rest =>
      by_cases hp : c1 = '\r' ∧ c2 = '\n'
      · rw [show replaceCRLF (c1 :: c2 :: rest) = '\n' :: replaceCRLF rest from by
          rw [replaceCRLF, if_pos hp]]
        rw [show goLower ('\n' :: replaceCRLF rest) =
            '\n' :: goLower (replaceCRLF rest) from by simp [goLower]]
        cases k with
        | zero =>
          rw [List.drop_zero, markerL, leadsList]
          simp
        | succ k' =>
          rw [List.drop_succ_cons]
          have hrest : ∀ k2, leadsList markerL ((goLower rest).drop k2) = false := by
            intro k2
            have h2 := h (k2 + 2)
            rw [show goLower (c1 :: c2 :: rest) =
                c1.toLower :: c2.toLower :: goLower rest from by simp [goLower]] at h2
            rw [List.drop_succ_cons, List.drop_succ_cons] at h2
            exact h2
          exact ih rest (by simp at hlen ⊢; omega) hrest k'
      · rw [show replaceCRLF (c1 :: c2 :: rest) = c1 :: replaceCRLF (c2 :: rest) from by
          rw [replaceCRLF, if_neg hp]]
        rw [show goLower (c1 :: replaceCRLF (c2 :: rest)) =
            c1.toLower :: goLower (replaceCRLF (c2 :: rest)) from by simp [goLower]]
        cases k with
        | zero =>
          rw [List.drop_zero]
          by_contra hpos
          rw [Bool.not_eq_false] at hpos
          have hfull : leadsList markerL (goLower (replaceCRLF (c1 :: c2 :: rest))) = true := by
            rw [show replaceCRLF (c1 :: c2 :: rest) = c1 :: replaceCRLF (c2 :: rest) from by
              rw [replaceCRLF, if_neg hp]]
            rw [show goLower (c1 :: replaceCRLF (c2 :: rest)) =
                c1.toLower :: goLower (replaceCRLF (c2 :: rest)) from by simp [goLower]]
            exact hpos
          have hback := leadsList_lower_replaceCRLF (c1 :: c2 :: rest).length
            (c1 :: c2 :: rest) markerL le_rfl newline_not_mem_marker hfull
          have h0 := h 0
          rw [List.drop_zero] at h0
          rw [h0] at hback
          exact Bool.noConfusion hback
        | succ k' =>
          rw [List.drop_succ_cons]
          have htail : ∀ k2, leadsList markerL ((goLower (c2 :: rest)).drop k2) = false := by
            intro k2
            have h2 := h (k2 + 1)
            rw [show goLower (c1 :: c2 :: rest) =
                c1.toLower :: goLower (c2 :: rest) from by simp [goLower]] at h2
            rw [List.drop_succ_cons] at h2
            exact h2
          exact ih (c2 :: rest) (by simp at hlen ⊢; omega) htail k'

/-- Converse of `strIndexAux_none_no_lead`: a pattern-free text scans to
`none`. -/
lemma strIndexAux_none_of_no_lead :
    ∀ (l : List Char) (i : Nat),
      (∀ k, leadsList markerL (l.drop k) = false) → strIndexAux markerL l i = none := by
  intro l
  induction l with
  | nil =>
    intro i _
    rw [strIndexAux]
    simp [markerL]
  | cons c rest ih =>
    intro i h
    rw [strIndexAux]
    have h0 := h 0
    rw [List.drop_zero] at h0
    rw [if_neg (by rw [h0]; simp)]
    exact ih (i + 1) (fun k => by
      have hk := h (k + 1)
      rwa [List.drop_succ_cons] at hk)

/-- Scanning walks through the literal `Title: ` head (no marker can start
there: none of its characters is `d`). -/
lemma strIndexAux_skip_lowtitle (R : List Char) (i : Nat) :
    strIndexAux markerL (['t', 'i', 't', 'l', 'e', ':', ' '] ++ R) i =
      strIndexAux markerL R (i + 7) := by
  have hd : ∀ (c : Char) (rest : List Char), c ≠ 'd' →
      leadsList markerL (c :: rest) = false := by
    intro c rest hc
    rw [markerL, leadsList]
    have : ('d' == c) = false := by
      simp only [beq_eq_false_iff_ne]
      exact fun h => hc h.symm
    rw [this, Bool.false_and]
  simp only [List.cons_append, List.nil_append]
  rw [strIndexAux, if_neg (by rw [hd 't' _ (by decide)]; simp)]
  rw [strIndexAux, if_neg (by rw [hd 'i' _ (by decide)]; simp)]
  rw [strIndexAux, if_neg (by rw [hd 't' _ (by decide)]; simp)]
  rw [strIndexAux, if_neg (by rw [hd 'l' _ (by decide)]; simp)]
  rw [strIndexAux, if_neg (by rw [hd 'e' _ (by decide)]; simp)]
  rw [strIndexAux, if_neg (by rw [hd ':' _ (by decide)]; simp)]
  rw [strIndexAux, if_neg (by rw [hd ' ' _ (by decide)]; simp)]

/-- Scanning walks through a marker-free lowered title that is followed by a
newline: no occurrence can start inside it or straddle its end. -/
lemma strIndexAux_skip_title (z : List Char) :
    ∀ (t' : List Char) (i : Nat),
      (∀ k, leadsList markerL (t'.drop k) = false) →
      strIndexAux markerL (t' ++ '\n' :: z) i =
        strIndexAux markerL ('\n' :: z) (i + t'.length) := by
  intro t'
  induction t' with
  | nil => intro i _; simp
  | cons c t'' ih =>
    intro i hno
    have hstep : leadsList markerL (c :: (t'' ++ '\n' :: z)) = false := by
      by_contra hpos
      rw [Bool.not_eq_false] at hpos
      have h2 := leads_marker_stops_at_newline (c :: t'') z (by
        rw [List.cons_append]; exact hpos)
      have h0 := hno 0
      rw [List.drop_zero] at h0
      rw [h0] at h2
      exact Bool.noConfusion h2
    rw [List.cons_append, strIndexAux, if_neg (by rw [hstep]; simp)]
    rw [ih (i + 1) (fun k => by
      have hk := hno (k + 1)
      rwa [List.drop_succ_cons] at hk)]
    congr 1
    simp only [List.length_cons]
    omega

/-- The scan lands exactly on the rendered `Description:` marker after the
two separating newlines. -/
lemma strIndexAux_land (w : List Char) (i : Nat) :
    strIndexAux markerL ('\n' :: '\n' :: (markerL ++ w)) i = some (i + 2) := by
  have hn : ∀ rest : List Char, leadsList markerL ('\n' :: rest) = false := by
    intro rest
    rw [markerL, leadsList]
    simp
  rw [strIndexAux, if_neg (by rw [hn]; simp)]
  rw [strIndexAux, if_neg (by rw [hn]; simp)]
  rw [show markerL ++ w =
    'd' :: ('e' :: 's' :: 'c' :: 'r' :: 'i' :: 'p' :: 't' :: 'i' :: 'o' :: 'n' :: ':' :: w)
    from rfl]
  rw [strIndexAux,
    if_pos (show leadsList markerL
      ('d' :: ('e' :: 's' :: 'c' :: 'r' :: 'i' :: 'p' :: 't' :: 'i' :: 'o' :: 'n' :: ':' :: w)) = true
      from leadsList_self_append markerL w)]

/-- The rendered description is non-empty and stable under trimming at both
ends (it is either a `goTrim` result or the placeholder). -/
lemma articleDescL_spec (a : NewsApiArticle) :
    dropTrailing (articleDescL a) = articleDescL a ∧
    (articleDescL a).dropWhile goIsSpace = articleDescL a ∧
    articleDescL a ≠ [] := by
  rw [articleDescL]
  by_cases h0 : goTrim a.description.toList = []
  · rw [if_pos h0]
    by_cases h1 : goTrim a.content.toList = []
    · rw [if_pos h1]
      exact ⟨by decide, by decide, by decide⟩
    · rw [if_neg h1]
      exact ⟨dropTrailing_goTrim _, dropWhile_goTrim _, h1⟩
  · rw [if_neg h0, if_neg h0]
    exact ⟨dropTrailing_goTrim _, dropWhile_goTrim _, h0⟩

/-- The first 14 characters of the rendered separator `\n\nDescription: `
(everything except its trailing space). -/
def dpFront : List Char :=
  ['\n', '\n', 'D', 'e', 's', 'c', 'r', 'i', 'p', 't', 'i', 'o', 'n', ':']

/-- Trimming the rendered body just removes its final newline. -/
lemma goTrim_rendered (t d : List Char)
    (hdback : dropTrailing d = d) (hdne : d ≠ []) :
    goTrim (titlePre ++ (t ++ (descPre ++ (d ++ ['\n'])))) =
      titlePre ++ (t ++ (descPre ++ d)) := by
  rw [goTrim]
  have hfront : (titlePre ++ (t ++ (descPre ++ (d ++ ['\n'])))).dropWhile goIsSpace =
      titlePre ++ (t ++ (descPre ++ (d ++ ['\n']))) := by
    rw [titlePre, List.cons_append, List.dropWhile_cons,
      if_neg (by rw [show goIsSpace 'T' = false from by decide]; simp), ← List.cons_append,
      ← titlePre]
  rw [hfront]
  have hassoc : titlePre ++ (t ++ (descPre ++ (d ++ ['\n']))) =
      (titlePre ++ (t ++ (descPre ++ d))) ++ ['\n'] := by
    simp [List.append_assoc]
  rw [hassoc, dropTrailing_append_newline]
  have hassoc2 : titlePre ++ (t ++ (descPre ++ d)) = (titlePre ++ (t ++ descPre)) ++ d := by
    simp [List.append_assoc]
  rw [hassoc2, dropTrailing_append_stable _ d hdback hdne]

/-- Normalizing the trimmed rendered body only normalizes the title segment:
the trimmed title cannot end in CR (CR is whitespace), the literal segments
contain no CRLF, and the rendered description is CRLF-free by hypothesis. -/
lemma replaceCRLF_rendered (a : NewsApiArticle)
    (hdcr : hasCRLF (articleDescL a) = false) :
    replaceCRLF (titlePre ++ (goTrim a.title.toList ++ (descPre ++ articleDescL a))) =
      titlePre ++ (replaceCRLF (goTrim a.title.toList) ++ (descPre ++ articleDescL a)) := by
  have htLast : (goTrim a.title.toList).getLast? ≠ some '\r' := by
    intro hsome
    have hsp := goTrim_getLast_not_space a.title.toList '\r' hsome
    rw [show goIsSpace '\r' = true from by decide] at hsp
    exact Bool.noConfusion hsp
  have h1 := replaceCRLF_append_no_cr titlePre.length titlePre
    (goTrim a.title.toList ++ (descPre ++ articleDescL a)) le_rfl (by decide)
  have h2 := replaceCRLF_append_no_cr (goTrim a.title.toList).length
    (goTrim a.title.toList) (descPre ++ articleDescL a) le_rfl htLast
  have h3 := replaceCRLF_append_no_cr descPre.length descPre (articleDescL a)
    le_rfl (by decide)
  rw [h1, h2, h3]
  rw [show replaceCRLF titlePre = titlePre from by decide,
    show replaceCRLF descPre = descPre from by decide,
    replaceCRLF_of_no_crlf (articleDescL a).length _ le_rfl hdcr]

/-- The case-insensitive marker search over the lowered rendered body finds
the rendered `Description:` right after the two separating newlines, provided
the lowered title contains no occurrence of the marker. -/
lemma strIndex_rendered (t d : List Char)
    (hmark : strIndex (goLower t) markerL = none) :
    strIndex (goLower (titlePre ++ (t ++ (descPre ++ d)))) markerL =
      some (7 + (goLower t).length + 2) := by
  have h1 : goLower titlePre = ['t', 'i', 't', 'l', 'e', ':', ' '] := by decide
  have h2 : goLower descPre = '\n' :: '\n' :: (markerL ++ [' ']) := by decide
  have hlow : goLower (titlePre ++ (t ++ (descPre ++ d))) =
      ['t', 'i', 't', 'l', 'e', ':', ' '] ++
        (goLower t ++ ('\n' :: ('\n' :: (markerL ++ (' ' :: goLower d))))) := by
    rw [show goLower (titlePre ++ (t ++ (descPre ++ d))) =
        goLower titlePre ++ (goLower t ++ (goLower descPre ++ goLower d)) from by
      simp [goLower]]
    rw [h1, h2]
    simp
  have hno : ∀ k, leadsList markerL ((goLower t).drop k) = false :=
    strIndexAux_none_no_lead markerL (by decide) (goLower t) 0 hmark
  rw [hlow, strIndex, strIndexAux_skip_lowtitle]
  rw [strIndexAux_skip_title ('\n' :: (markerL ++ (' ' :: goLower d))) (goLower t)
    (0 + 7) hno]
  rw [strIndexAux_land]

/-- Dropping the found index plus the marker length lands exactly on the
space before the rendered description. -/
lemma drop_rendered (t d : List Char) :
    (titlePre ++ (t ++ (descPre ++ d))).drop
        ((7 + (goLower t).length + 2) + markerL.length) = ' ' :: d := by
  have hshape : titlePre ++ (t ++ (descPre ++ d)) =
      (titlePre ++ (t ++ dpFront)) ++ (' ' :: d) := by
    rw [show descPre = dpFront ++ [' '] from by decide]
    simp [List.append_assoc]
  rw [hshape]
  apply List.drop_left'
  simp [titlePre, dpFront, markerL, goLower]
  omega

/-- The final trim of the extracted segment recovers the rendered
description exactly. -/
lemma goTrim_space_desc (d : List Char)
    (hdback : dropTrailing d = d) (hdfront : d.dropWhile goIsSpace = d) :
    goTrim (' ' :: d) = d := by
  rw [goTrim, List.dropWhile_cons,
    if_pos (by rw [show goIsSpace ' ' = true from by decide]), hdfront, hdback]

mutual
/-- Structural size of a JSON value (for inductions on nesting). -/
def jsizeJ : Json → Nat
  | .null => 1
  | .bool _ => 1
  | .num _ => 1
  | .str _ => 1
  | .arr items => jsizeL items + 1
  | .obj fields => jsizeF fields + 1

/-- Structural size of a JSON list. -/
def jsizeL : List Json → Nat
  | [] => 0
  | v :: rest => jsizeJ v + jsizeL rest + 1

/-- Structural size of a JSON field list. -/
def jsizeF : List (String × Json) → Nat
  | [] => 0
  | kv :: rest => jsizeJ kv.2 + jsizeF rest + 1
end

/-- Every JSON value has positive size. -/
lemma jsizeJ_pos (j : Json) : 1 ≤ jsizeJ j := by
  cases j <;> rw [jsizeJ] <;> omega

/-- Joint size-bounded statement of the `extractScore` / `hasNumLeaf`
equivalence: extraction succeeds exactly on values containing a numeric (or
numeric-string) leaf, and a successful named-key probe implies such a leaf
among the field values. -/
lemma extract_leaf_pack : ∀ n : Nat,
    (∀ j : Json, jsizeJ j ≤ n → (Json.extractScore j).isSome = j.hasNumLeaf) ∧
    (∀ l : List Json, jsizeL l ≤ n →
      (extractScoreList l).isSome = hasNumLeafList l) ∧
    (∀ fs : List (String × Json), jsizeF fs ≤ n →
      (extractScoreVals fs).isSome = hasNumLeafFields fs) ∧
    (∀ (fs : List (String × Json)) (key : String), jsizeF fs ≤ n →
      (probeKey fs key).isSome = true → hasNumLeafFields fs = true) := by
  intro n
  induction n with
  | zero =>
    refine ⟨?_, ?_, ?_, ?_⟩
    · intro j hsz; have := jsizeJ_pos j; omega
    · intro l hsz
      cases l with
      | nil => rfl
      | cons v rest => rw [jsizeL] at hsz; have := jsizeJ_pos v; omega
    · intro fs hsz
      cases fs with
      | nil => rfl
      | cons kv rest => rw [jsizeF] at hsz; have := jsizeJ_pos kv.2; omega
    · intro fs key hsz hp
      cases fs with
      | nil => simp [probeKey] at hp
      | cons kv rest => rw [jsizeF] at hsz; have := jsizeJ_pos kv.2; omega
  | succ n ih =>
    obtain ⟨ihJ, ihL, ihF, ihP⟩ := ih
    have hObj : ∀ fs : List (String × Json), jsizeF fs ≤ n →
        (Json.extractScore (.obj fs)).isSome = hasNumLeafFields fs := by
      intro fields hf
      rw [show Json.extractScore (.obj fields) =
          (match probeKey fields "bias" with
           | some q => some q
           | none =>
             match probeKey fields "bias_score" with
             | some q => some q
             | none =>
               match probeKey fields "score" with
               | some q => some q
               | none => extractScoreVals fields) from rfl]
      cases hb : probeKey fields "bias" with
      | some q =>
        simp only [Option.isSome_some]
        exact (ihP fields "bias" hf (by rw [hb]; rfl)).symm
      | none =>
        cases hbs : probeKey fields "bias_score" with
        | some q =>
          simp only [Option.isSome_some]
          exact (ihP fields "bias_score" hf (by rw [hbs]; rfl)).symm
        | none =>
          cases hsc : probeKey fields "score" with
          | some q =>
            simp only [Option.isSome_some]
            exact (ihP fields "score" hf (by rw [hsc]; rfl)).symm
          | none => exact ihF fields hf
    refine ⟨?_, ?_, ?_, ?_⟩
    · intro j hsz
      cases j with
      | null => rfl
      | bool b => rfl
      | num q => rfl
      | str s =>
        show (parseFloatL (goTrim s.toList)).isSome = (parseDec (goTrim s.toList)).isSome
        rw [parseFloatL]
        cases parseDec (goTrim s.toList) <;> rfl
      | arr items =>
        have h1 : jsizeL items ≤ n := by rw [jsizeJ] at hsz; omega
        exact ihL items h1
      | obj fields =>
        have h1 : jsizeF fields ≤ n := by rw [jsizeJ] at hsz; omega
        exact hObj fields h1
    · intro l hsz
      cases l with
      | nil => rfl
      | cons v rest =>
        have h1 : jsizeJ v ≤ n := by rw [jsizeL] at hsz; omega
        have h2 : jsizeL rest ≤ n := by rw [jsizeL] at hsz; omega
        rw [show extractScoreList (v :: rest) =
            (match v.extractScore with
             | some q => some q
             | none => extractScoreList rest) from rfl,
          show hasNumLeafList (v :: rest) =
            (v.hasNumLeaf || hasNumLeafList rest) from rfl]
        cases hv : v.extractScore with
        | some q =>
          have := ihJ v h1
          rw [hv] at this
          simp [← this]
        | none =>
          have := ihJ v h1
          rw [hv] at this
          simp [← this]
          exact ihL rest h2
    · intro fs hsz
      cases fs with
      | nil => rfl
      | cons kv rest =>
        have h1 : jsizeJ kv.2 ≤ n := by rw [jsizeF] at hsz; omega
        have h2 : jsizeF rest ≤ n := by rw [jsizeF] at hsz; omega
        rcases kv with ⟨k, v⟩
        rw [show extractScoreVals ((k, v) :: rest) =
            (match v.extractScore with
             | some q => some q
             | none => extractScoreVals rest) from rfl,
          show hasNumLeafFields ((k, v) :: rest) =
            (v.hasNumLeaf || hasNumLeafFields rest) from rfl]
        cases hv : v.extractScore with
        | some q =>
          have := ihJ v h1
          rw [hv] at this
          simp [← this]
        | none =>
          have := ihJ v h1
          rw [hv] at this
          simp [← this]
          exact ihF rest h2
    · intro fs key hsz hp
      cases fs with
      | nil => simp [probeKey] at hp
      | cons kv rest =>
        have h1 : jsizeJ kv.2 ≤ n := by rw [jsizeF] at hsz; omega
        have h2 : jsizeF rest ≤ n := by rw [jsizeF] at hsz; omega
        rcases kv with ⟨k, v⟩
        rw [show hasNumLeafFields ((k, v) :: rest) =
            (v.hasNumLeaf || hasNumLeafFields rest) from rfl]
        rw [probeKey] at hp
        by_cases hk : k = key
        · rw [if_pos hk] at hp
          have := ihJ v h1
          rw [← this, hp]
          simp
        · rw [if_neg hk] at hp
          rw [ihP rest key h2 hp]
          simp

/-- The `extractScore` / `hasNumLeaf` equivalence, closed form. -/
lemma extractScore_isSome_iff (j : Json) :
    (Json.extractScore j).isSome = j.hasNumLeaf :=
  (extract_leaf_pack (jsizeJ j)).1 j le_rfl

/-- A candidate with a blank normalized link or title is skipped and the
state (store, UUID supply, id counter) is left untouched. -/
lemma processCandidate_skipped (env : IngestEnv) (st : IngestState) (tag : String)
    (i : Nat) (art : NewsApiArticle)
    (h : art.articleURL = "" ∨ goTrimS art.title = "") :
    processCandidate env st tag i art = (st, .skipped) := by
  rw [processCandidate, if_pos h]

/-- The candidate outcome is `.skipped` exactly on a blank link or title. -/
lemma processCandidate_outcome (env : IngestEnv) (st : IngestState) (tag : String)
    (i : Nat) (art : NewsApiArticle) :
    (processCandidate env st tag i art).2 = .skipped ↔
      (art.articleURL = "" ∨ goTrimS art.title = "") := by
  constructor
  · intro hout
    by_contra h
    rw [processCandidate] at hout
    simp only at hout
    rw [if_neg h] at hout
    cases hdb : dbLookup st.db art.articleURL with
    | some existing => rw [hdb] at hout; simp at hout
    | none =>
      rw [hdb] at hout
      cases hr : env.race i with
      | some dup => rw [hr] at hout; simp at hout
      | none => rw [hr] at hout; simp at hout
  · intro h
    rw [processCandidate_skipped env st tag i art h]

/-- The candidate loop counts every candidate exactly once, and counts as
skipped exactly the candidates with a blank normalized link or title. -/
lemma fetchLoop_counts (env : IngestEnv) (tag : String) :
    ∀ (arts : List NewsApiArticle) (i : Nat) (st : IngestState) (acc : TopicSummary),
      (fetchLoop env tag arts i st acc).2.stored +
          (fetchLoop env tag arts i st acc).2.updated +
          (fetchLoop env tag arts i st acc).2.skipped =
        acc.stored + acc.updated + acc.skipped + arts.length ∧
      (fetchLoop env tag arts i st acc).2.skipped =
        acc.skipped +
          arts.countP (fun a => decide (a.articleURL = "" ∨ goTrimS a.title = "")) := by
  intro arts
  induction arts with
  | nil => intro i st acc; simp [fetchLoop]
  | cons a rest ih =>
    intro i st acc
    have hiff := processCandidate_outcome env st tag i a
    rcases hstep : processCandidate env st tag i a with ⟨st2, out⟩
    rw [hstep] at hiff
    rw [fetchLoop, hstep]
    cases out with
    | skipped =>
      have hp : decide (a.articleURL = "" ∨ goTrimS a.title = "") = true := by
        simpa using hiff.mp rfl
      obtain ⟨ih1, ih2⟩ := ih (i + 1) st2 { acc with skipped := acc.skipped + 1 }
      simp only at ih1 ih2
      simp only [List.countP_cons, List.length_cons, hp, if_true, eq_self_iff_true]
      omega
    | stored =>
      have hp : decide (a.articleURL = "" ∨ goTrimS a.title = "") = false := by
        simp only [decide_eq_false_iff_not]
        exact fun hc => StepOutcome.noConfusion (hiff.mpr hc)
      obtain ⟨ih1, ih2⟩ := ih (i + 1) st2 { acc with stored := acc.stored + 1 }
      simp only at ih1 ih2
      simp only [List.countP_cons, List.length_cons, hp, if_false, Bool.false_eq_true]
      omega
    | updated =>
      have hp : decide (a.articleURL = "" ∨ goTrimS a.title = "") = false := by
        simp only [decide_eq_false_iff_not]
        exact fun hc => StepOutcome.noConfusion (hiff.mpr hc)
      obtain ⟨ih1, ih2⟩ := ih (i + 1) st2 { acc with updated := acc.updated + 1 }
      simp only at ih1 ih2
      simp only [List.countP_cons, List.length_cons, hp, if_false, Bool.false_eq_true]
      omega

end NewsPipeline

namespace NewsPipeline

/-! ## Claim theorems -/

/-- C7: the inference client turns every non-2xx HTTP response into a typed
`InferenceError` carrying the status code and message, and
`InferenceError.Retryable()` returns true exactly when the status code lies
in 500–599. -/
theorem spec_c7_inference_error_typing (status : Nat) (body : String)
    (unmarshal : Option Json) (h : status < 200 ∨ 300 ≤ status) :
    invokeBiasEndpoint status body unmarshal =
      .error (.inference ⟨status,
        "huggingface returned status " ++ toString status ++ ": " ++ goTrimS body⟩) ∧
    ∀ code msg, InferenceError.retryable ⟨code, msg⟩ = true ↔
      500 ≤ code ∧ code < 600 := by
  constructor
  · rw [invokeBiasEndpoint, if_pos (by omega)]
  · intro code msg
    simp [InferenceError.retryable]

/-- Witness for C7 at status 404 (and the retryability boundary cases). -/
theorem spec_c7_witness :
    (invokeBiasEndpoint 404 "nf" none =
      .error (.inference ⟨404,
        "huggingface returned status " ++ toString 404 ++ ": " ++ goTrimS "nf"⟩)) ∧
    (InferenceError.retryable ⟨503, ""⟩ = true ↔ 500 ≤ 503 ∧ 503 < 600) := by
  have h := spec_c7_inference_error_typing 404 "nf" none (by omega)
  exact ⟨h.1, h.2 503 ""⟩

/-- C2: `invokeBiasWithRetry` makes at most 3 attempts; an always-503
endpoint sees exactly 3 attempts with waits of 1s then 2s and gets the last
(third) error back unchanged; a 400 endpoint sees exactly 1 attempt; a
context cancelled during the first backoff aborts the wait and surfaces the
cancellation. -/
theorem spec_c2_retry_policy :
    (∀ env : RetryEnv, (invokeBiasWithRetry env).2.1 ≤ maxAttempts) ∧
    invokeBiasWithRetry
        ⟨fun n => .error (.inference ⟨503, "s" ++ toString n⟩), fun _ => false⟩ =
      (.err (.inference ⟨503, "s" ++ toString 3⟩), 3, [1, 2]) ∧
    invokeBiasWithRetry
        ⟨fun _ => .error (.inference ⟨400, "bad"⟩), fun _ => false⟩ =
      (.err (.inference ⟨400, "bad"⟩), 1, []) ∧
    invokeBiasWithRetry
        ⟨fun _ => .error (.inference ⟨503, "s"⟩), fun _ => true⟩ =
      (.cancelled, 1, []) := by
  refine ⟨fun env => retryGo_attempts_le env maxAttempts 1, by decide, by decide, by decide⟩

/-- C3: `parseBiasScore` finds `0.42` in `{"bias": 0.42}`, in
`{"label": {"score": "0.42"}}` (recursing through maps and coercing the
numeric string), and in the bare body `0.42`; an empty body and a
non-numeric body both fail. -/
theorem spec_c3_parse_bias_score :
    parseBiasScore "\x7b\"bias\": 0.42\x7d"
        (some (Json.obj [("bias", Json.num (42 / 100))])) = .ok (42 / 100 : ℚ) ∧
    parseBiasScore "\x7b\"label\": \x7b\"score\": \"0.42\"\x7d\x7d"
        (some (Json.obj [("label", Json.obj [("score", Json.str "0.42")])])) =
      .ok (42 / 100 : ℚ) ∧
    parseBiasScore "0.42" (some (Json.num (42 / 100))) = .ok (42 / 100 : ℚ) ∧
    parseBiasScore "" none = .error "empty response body" ∧
    parseBiasScore "hello" none =
      .error "unable to parse bias score from response: hello" ∧
    parseBiasScore "\"hello\"" (some (Json.str "hello")) =
      .error "unable to parse bias score from response: \"hello\"" := by
  refine ⟨rfl, ?_, rfl, rfl, rfl, rfl⟩
  rw [show parseBiasScore "\x7b\"label\": \x7b\"score\": \"0.42\"\x7d\x7d"
      (some (Json.obj [("label", Json.obj [("score", Json.str "0.42")])])) =
      Except.ok (decToRat 42 2 0) from rfl]
  rw [decToRat]
  norm_num

/-- C6: `ProcessBiasForArticles` is not transactional across articles —
every input article lands in exactly one of `updated`/`failed`, so
`updated + failed = total = #input`, with one ordered failure record per
failure; an article with a blank retrieval URL fails with reason
`missing s3 url` under every environment (no download or inference call);
and the 2-article scenario (one blank URL, one valid) yields
`{updated: 1, failed: 1, total: 2}`. -/
theorem spec_c6_batch_reconciliation :
    (∀ (env : BiasEnv) (db articles : List Article),
      (processBiasForArticles env db articles).2.total = articles.length ∧
      (processBiasForArticles env db articles).2.updated +
          (processBiasForArticles env db articles).2.failed =
        (processBiasForArticles env db articles).2.total ∧
      (processBiasForArticles env db articles).2.failures.length =
        (processBiasForArticles env db articles).2.failed) ∧
    (∀ (env : BiasEnv) (db : List Article) (a : Article),
      goTrimS a.s3Url = "" → processOne env db a = (db, some "missing s3 url")) ∧
    (processBiasForArticles
      ⟨fun _ => .ok "Title: T\n\nDescription: D\n", fun _ => .ok 1, fun _ _ => none⟩
      []
      [{ id := 1, createdAt := 0, title := "t1", description := "", link := "l1",
         imageURL := "", author := "", tags := "x", hashVal := 1, s3Url := " ",
         bias := 0 },
       { id := 2, createdAt := 0, title := "t2", description := "", link := "l2",
         imageURL := "", author := "", tags := "x", hashVal := 2, s3Url := "u2",
         bias := 0 }]).2 =
    ⟨1, 1, 2, [⟨1, "t1", "missing s3 url"⟩]⟩ := by
  refine ⟨?_, ?_, by decide⟩
  · intro env db articles
    obtain ⟨h1, h2, h3⟩ := pbFold_counts env articles (db, ⟨0, 0, articles.length, []⟩)
    rw [processBiasForArticles]
    simp only [List.length_nil] at h1 h2 h3
    exact ⟨h3, by omega, by omega⟩
  · intro env db a h
    rw [processOne, if_pos h]

/-- C5: `fetchTopic` processes at most `MaxArticles` candidates in source
order; every candidate within the cap with a blank normalized link or title
counts as skipped (storing nothing), every other one lands in exactly one of
stored/updated; the 5-candidate scenario (2 missing titles, fresh store)
yields `{stored: 3, updated: 0, skipped: 2}`. -/
theorem spec_c5_candidate_accounting :
    (∀ (race : Nat → Option Article) (uuids : Nat → Nat) (m : Nat) (topic : String)
        (arts : List NewsApiArticle) (st : IngestState),
      goTrimS topic ≠ "" →
      ∃ out, fetchTopic ⟨.ok arts, race, uuids⟩ m topic st = .ok out ∧
        (let capped := if 0 < m then arts.take m else arts
         out.2.stored + out.2.updated + out.2.skipped = capped.length ∧
         out.2.skipped = capped.countP
           (fun a => decide (a.articleURL = "" ∨ goTrimS a.title = "")))) ∧
    (∀ (env : IngestEnv) (st : IngestState) (tag : String) (i : Nat)
        (art : NewsApiArticle),
      art.articleURL = "" ∨ goTrimS art.title = "" →
      processCandidate env st tag i art = (st, .skipped)) ∧
    (fetchTopic
      ⟨.ok [
        { title := "A1", description := "d1", link := "", url := "u1", imageURL := "",
          urlToImage := "", content := "", creator := [], author := "" },
        { title := "A2", description := "d2", link := "", url := "u2", imageURL := "",
          urlToImage := "", content := "", creator := [], author := "" },
        { title := "", description := "d3", link := "", url := "u3", imageURL := "",
          urlToImage := "", content := "", creator := [], author := "" },
        { title := "A4", description := "d4", link := "", url := "u4", imageURL := "",
          urlToImage := "", content := "", creator := [], author := "" },
        { title := "", description := "d5", link := "", url := "u5", imageURL := "",
          urlToImage := "", content := "", creator := [], author := "" }],
       fun _ => none, fun i => i + 101⟩
      5 "Technology" ⟨[], 0, 1⟩).toOption.map Prod.snd = some ⟨3, 0, 2⟩ := by
  refine ⟨?_, processCandidate_skipped, by decide⟩
  intro race uuids m topic arts st htopic
  rw [fetchTopic, if_neg htopic]
  refine ⟨_, rfl, ?_, ?_⟩
  · have h := (fetchLoop_counts ⟨.ok arts, race, uuids⟩ (goLowerS (goTrimS topic))
      (if 0 < m then arts.take m else arts) 0 st ⟨0, 0, 0⟩).1
    simpa using h
  · have h := (fetchLoop_counts ⟨.ok arts, race, uuids⟩ (goLowerS (goTrimS topic))
      (if 0 < m then arts.take m else arts) 0 st ⟨0, 0, 0⟩).2
    simpa using h

/-- Witness for C5 at the empty candidate list. -/
theorem spec_c5_witness :
    ∃ out, fetchTopic ⟨.ok [], fun _ => none, fun _ => 0⟩ 5 "t" ⟨[], 0, 1⟩ = .ok out ∧
      (let capped := if 0 < 5 then ([] : List NewsApiArticle).take 5 else []
       out.2.stored + out.2.updated + out.2.skipped = capped.length ∧
       out.2.skipped = capped.countP
         (fun a => decide (a.articleURL = "" ∨ goTrimS a.title = ""))) :=
  spec_c5_candidate_accounting.1 (fun _ => none) (fun _ => 0) 5 "t" [] ⟨[], 0, 1⟩
    (by decide)

/-- The concurrently inserted row the C1 counterexample's race oracle
returns: it already carries `hash_val` 42 for link `L`. -/
def raceRowC1 : Article :=
  { id := 7, createdAt := 0, title := "old", description := "od", link := "L",
    imageURL := "", author := "", tags := "t", hashVal := 42, s3Url := "oldurl",
    bias := 0 }

/-- The C1 counterexample environment: the fetch returns one candidate for
link `L`, the store is empty (so the lookup misses), the insert hits the
uniqueness violation and the re-read finds `raceRowC1`, and the fresh UUID
minted for the new object is 99. -/
def ingestEnvC1 : IngestEnv :=
  ⟨.ok [{ title := "T", description := "d", link := "", url := "L", imageURL := "",
          urlToImage := "", content := "", creator := [], author := "" }],
   fun _ => some raceRowC1, fun _ => 99⟩

/-- Counterexample to C1: on the insert-conflict reconciliation path the
row's `hash_val` is NOT left identical — re-ingesting link `L` against a row
whose `hash_val` is 42 saves the row with the freshly minted `hash_val` 99. -/
theorem spec_c1_counterexample :
    raceRowC1.hashVal = 42 ∧
    (fetchTopic ingestEnvC1 5 "t" ⟨[], 0, 1⟩).toOption.map
        (fun p => p.1.db.map Article.hashVal) = some [99] ∧
    (42 : Nat) ≠ 99 := by
  refine ⟨rfl, by decide, by decide⟩

/-- C1 (amended): `hash_val` is stable across the found-by-link update path —
re-ingesting a link whose row already carries a nonzero `hash_val` saves the
row with that same `hash_val` (only the mutable fields and the signed URL
change); but on the insert-conflict reconciliation path the re-read row is
saved with the freshly minted `hash_val` (matching the object key the new
body was just uploaded under), so the hash is replaced there. -/
theorem spec_c1_hash_stability_amended :
    (∀ (env : IngestEnv) (st : IngestState) (tag : String) (i : Nat)
        (art : NewsApiArticle) (existing : Article),
      ¬(art.articleURL = "" ∨ goTrimS art.title = "") →
      dbLookup st.db art.articleURL = some existing →
      existing.hashVal ≠ 0 →
      ∃ row, processCandidate env st tag i art =
          ({ st with db := dbSave st.db row }, .updated) ∧
        row.hashVal = existing.hashVal ∧ row.id = existing.id ∧
        row.link = existing.link ∧
        row.s3Url = presignUrl (objectKey tag existing.hashVal)) ∧
    (∀ (env : IngestEnv) (st : IngestState) (tag : String) (i : Nat)
        (art : NewsApiArticle) (dup : Article),
      ¬(art.articleURL = "" ∨ goTrimS art.title = "") →
      dbLookup st.db art.articleURL = none →
      env.race i = some dup →
      ∃ row, processCandidate env st tag i art =
          ({ st with db := dbSave st.db row, uuidIdx := st.uuidIdx + 1 }, .updated) ∧
        row.hashVal = env.uuids st.uuidIdx ∧ row.id = dup.id ∧
        row.link = dup.link) := by
  constructor
  · intro env st tag i art existing hns hdb h0
    rw [processCandidate]
    simp only
    rw [if_neg hns, hdb]
    simp only [mintUuid, if_neg h0]
    exact ⟨_, rfl, rfl, rfl, rfl, rfl⟩
  · intro env st tag i art dup hns hdb hr
    rw [processCandidate]
    simp only
    rw [if_neg hns, hdb, hr]
    exact ⟨_, rfl, rfl, rfl, rfl⟩

/-- Witness for C1's amended theorem: the found-by-link path at a concrete
store preserves `hash_val` 42. -/
theorem spec_c1_witness :
    ∃ row, processCandidate ⟨.ok [], fun _ => none, fun _ => 99⟩
        ⟨[raceRowC1], 0, 1⟩ "t" 0
        { title := "T", description := "d", link := "", url := "L", imageURL := "",
          urlToImage := "", content := "", creator := [], author := "" } =
        (⟨dbSave [raceRowC1] row, 0, 1⟩, .updated) ∧ row.hashVal = 42 := by
  obtain ⟨row, h1, h2, h3, h4, h5⟩ :=
    spec_c1_hash_stability_amended.1 ⟨.ok [], fun _ => none, fun _ => 99⟩
      ⟨[raceRowC1], 0, 1⟩ "t" 0
      { title := "T", description := "d", link := "", url := "L", imageURL := "",
        urlToImage := "", content := "", creator := [], author := "" }
      raceRowC1 (by decide) (by decide) (by decide)
  exact ⟨row, h1, h2⟩

/-- Witness for C6's universally quantified blank-URL branch. -/
theorem spec_c6_witness :
    processOne ⟨fun _ => .error "down", fun _ => .error "inv", fun _ _ => some "w"⟩
      [] { id := 9, createdAt := 0, title := "t", description := "", link := "l",
           imageURL := "", author := "", tags := "x", hashVal := 0, s3Url := "  ",
           bias := 0 } =
    ([], some "missing s3 url") := by
  exact spec_c6_batch_reconciliation.2.1
    ⟨fun _ => .error "down", fun _ => .error "inv", fun _ _ => some "w"⟩
    [] _ (by decide)

/-- C8: the on-demand query flow fails the whole request with the aggregated
per-item failure list whenever the scoring result has `Failed > 0`, and when
no item fails it re-loads the topic's rows after scoring and answers with
that refreshed set keyed by the topic — unlike the default scoring entry
point, whose response is always the success shape carrying the per-item
failures. -/
theorem spec_c8_query_flow_failure_upgrade :
    (∀ (ienv : IngestEnv) (benv : BiasEnv) (st : IngestState) (q : String)
        (m : Nat) (out : IngestState × TopicSummary),
      goTrimS q ≠ "" →
      fetchTopic ienv m (goTrimS q) st = .ok out →
      fetchNewsByQuery ienv benv st q m =
        (let articles := fetchArticlesForTag out.1.db (goTrimS q) m
         let scored := processBiasForArticles benv out.1.db articles
         if 0 < scored.2.failed then
           .serverError "failed to score bias for all articles" scored.2.failures
         else .ok [(goTrimS q, fetchArticlesForTag scored.1 (goTrimS q) m)])) ∧
    (∀ (env : BiasEnv) (db : List Article) (force : Bool) (limit : Nat),
      getBiasScoresResponse env db force limit =
        .ok (getBiasScores env db force limit).2.updated
          (getBiasScores env db force limit).2.failed
          (getBiasScores env db force limit).2.total
          (getBiasScores env db force limit).2.failures) := by
  constructor
  · intro ienv benv st q m out hq hfetch
    rw [fetchNewsByQuery, if_neg hq, hfetch]
  · intro env db force limit
    rfl

/-- Witness for C8 at a trivially scored topic: an empty candidate list for
topic `t` and an empty store, so no item fails and the refreshed (empty) set
is returned under the topic key. -/
theorem spec_c8_witness :
    fetchNewsByQuery ⟨.ok [], fun _ => none, fun _ => 0⟩
        ⟨fun _ => .error "down", fun _ => .error "inv", fun _ _ => some "w"⟩
        ⟨[], 0, 1⟩ "t" 5 =
      .ok [("t", [])] := by
  have h := spec_c8_query_flow_failure_upgrade.1
    ⟨.ok [], fun _ => none, fun _ => 0⟩
    ⟨fun _ => .error "down", fun _ => .error "inv", fun _ _ => some "w"⟩
    ⟨[], 0, 1⟩ "t" 5 (⟨[], 0, 1⟩, ⟨0, 0, 0⟩) (by decide) (by rfl)
  simpa using h

/-- Counterexample to C4's "returns the whole trimmed body" clause: for the
marker-free body `"a\r\nb"`, `extractDescription` returns the CRLF-normalized
`"a\nb"`, not the trimmed body `"a\r\nb"` itself. -/
theorem spec_c4_counterexample :
    strIndex (goLower (replaceCRLF (goTrim "a\r\nb".toList))) markerL = none ∧
    extractDescription "a\r\nb" = "a\nb" ∧
    goTrimS "a\r\nb" = "a\r\nb" ∧
    extractDescription "a\r\nb" ≠ goTrimS "a\r\nb" := by
  refine ⟨by decide, by decide, by decide, by decide⟩

/-- C4 (amended): `extractDescription` returns everything after the first
case-insensitive occurrence of `description:`, trimmed; when the marker is
absent it returns the whole trimmed body with CRLF pairs normalized to LF
(the body `"Title: X\n\nDescription: Y\n"` yields `"Y"`), and an article
whose downloaded body extracts to the empty string is failed with reason
`description is empty`. -/
theorem spec_c4_description_extraction_amended :
    extractDescription "Title: X\n\nDescription: Y\n" = "Y" ∧
    (∀ body : String,
      strIndex (goLower (replaceCRLF (goTrim body.toList))) markerL = none →
      extractDescription body = String.mk (goTrim (replaceCRLF (goTrim body.toList)))) ∧
    (∀ (env : BiasEnv) (db : List Article) (a : Article) (body : String),
      goTrimS a.s3Url ≠ "" →
      env.download a.s3Url = .ok body →
      extractDescription body = "" →
      processOne env db a = (db, some "description is empty")) := by
  refine ⟨by decide, ?_, ?_⟩
  · intro body hmark
    rw [extractDescription, extractDescriptionL]
    simp only
    by_cases hnil : goTrim body.toList = []
    · rw [if_pos hnil, hnil]
      rfl
    · rw [if_neg hnil]
      rw [strIndex] at hmark ⊢
      rw [hmark]
  · intro env db a body hurl hdl hempty
    rw [processOne, if_neg hurl, hdl]
    simp only
    rw [if_pos hempty]

/-- Witness for C4's amended theorem: the marker-free branch at `" x\r\ny "`
and the empty-extraction failure at a whitespace-only downloaded body. -/
theorem spec_c4_witness :
    extractDescription " x\r\ny " =
      String.mk (goTrim (replaceCRLF (goTrim " x\r\ny ".toList))) ∧
    processOne ⟨fun _ => .ok "  \n ", fun _ => .ok 1, fun _ _ => none⟩ []
        { id := 3, createdAt := 0, title := "t", description := "", link := "l",
          imageURL := "", author := "", tags := "x", hashVal := 0, s3Url := "u",
          bias := 0 } =
      ([], some "description is empty") := by
  constructor
  · exact spec_c4_description_extraction_amended.2.1 " x\r\ny " (by decide)
  · exact spec_c4_description_extraction_amended.2.2
      ⟨fun _ => .ok "  \n ", fun _ => .ok 1, fun _ _ => none⟩ [] _ "  \n "
      (by decide) rfl (by decide)

/-- C10: `parseBiasScore` succeeds on any JSON value containing a numeric or
numeric-string leaf at any depth (no named field required), because after the
named keys the extractor recurses over every map value and list element; the
bare-number fallback on the trimmed body is reached exactly when
unmarshalling failed or the JSON has no such leaf. -/
theorem spec_c10_recursive_leniency :
    ∀ (raw : String) (j : Json),
      goTrimS raw ≠ "" →
      ((∃ q, Json.extractScore j = some q) ↔ j.hasNumLeaf = true) ∧
      (j.hasNumLeaf = true →
        ∃ q, Json.extractScore j = some q ∧ parseBiasScore raw (some j) = .ok q) ∧
      (j.hasNumLeaf = false →
        parseBiasScore raw (some j) = parseBareFloat (goTrimS raw)) ∧
      parseBiasScore raw none = parseBareFloat (goTrimS raw) := by
  intro raw j hraw
  have hiff := extractScore_isSome_iff j
  refine ⟨?_, ?_, ?_, ?_⟩
  · constructor
    · rintro ⟨q, hq⟩
      rw [← hiff, hq]
      rfl
    · intro hleaf
      rw [hleaf] at hiff
      obtain ⟨q, hq⟩ := Option.isSome_iff_exists.mp hiff
      exact ⟨q, hq⟩
  · intro hleaf
    rw [hleaf] at hiff
    obtain ⟨q, hq⟩ := Option.isSome_iff_exists.mp hiff
    refine ⟨q, hq, ?_⟩
    rw [parseBiasScore, if_neg hraw, hq]
  · intro hleaf
    rw [hleaf] at hiff
    have hnone : Json.extractScore j = none := by
      cases h : Json.extractScore j with
      | none => rfl
      | some q => rw [h] at hiff; simp at hiff
    rw [parseBiasScore, if_neg hraw, hnone]
  · rw [parseBiasScore, if_neg hraw]

/-- The article of the C9 counterexample: a CRLF inside the description. -/
def articleC9 : NewsApiArticle :=
  { title := "T", description := "A\r\nB", link := "l", url := "", imageURL := "",
    urlToImage := "", content := "", creator := [], author := "" }

/-- Counterexample to C9 as stated: the description `"A\r\nB"` (non-empty,
title marker-free) is rendered into the body verbatim, but extraction
returns the CRLF-normalized `"A\nB"`, not the trimmed rendered description
itself. -/
theorem spec_c9_counterexample :
    strIndex (goLower (goTrim articleC9.title.toList)) markerL = none ∧
    articleDescL articleC9 = "A\r\nB".toList ∧
    extractDescriptionL (buildArticleTextL articleC9) = "A\nB".toList ∧
    extractDescriptionL (buildArticleTextL articleC9) ≠ articleDescL articleC9 := by
  refine ⟨by decide, by decide, by decide, by decide⟩

/-- C9 (amended): for every article whose title contains no case-insensitive
occurrence of `description:` and whose rendered description contains no CRLF
sequence (the normalization the counterexample exhibits),
`extractDescription ∘ buildArticleText` returns exactly the trimmed
description that was rendered into the body (the description after falling
back to content and then the placeholder — always non-empty).  The title may
contain CRLF: it is normalized before the marker search, which cannot create
a marker occurrence and still lands on the rendered `Description:`. -/
theorem spec_c9_roundtrip_amended (a : NewsApiArticle)
    (hmark : strIndex (goLower (goTrim a.title.toList)) markerL = none)
    (hdcr : hasCRLF (articleDescL a) = false) :
    extractDescriptionL (buildArticleTextL a) = articleDescL a := by
  obtain ⟨hdback, hdfront, hdne⟩ := articleDescL_spec a
  have htrim : goTrim (buildArticleTextL a) =
      titlePre ++ (goTrim a.title.toList ++ (descPre ++ articleDescL a)) := by
    rw [show buildArticleTextL a =
        titlePre ++ (goTrim a.title.toList ++ (descPre ++ (articleDescL a ++ ['\n'])))
      from by rw [buildArticleTextL]; simp [List.append_assoc]]
    exact goTrim_rendered _ _ hdback hdne
  have hne : goTrim (buildArticleTextL a) ≠ [] := by
    rw [htrim, titlePre]
    simp
  have hmark2 : strIndex (goLower (replaceCRLF (goTrim a.title.toList))) markerL = none := by
    rw [strIndex]
    apply strIndexAux_none_of_no_lead
    apply noOccLow_replaceCRLF (goTrim a.title.toList).length _ le_rfl
    rw [strIndex] at hmark
    exact strIndexAux_none_no_lead markerL (by decide) _ 0 hmark
  rw [extractDescriptionL, if_neg hne, htrim,
    replaceCRLF_rendered a hdcr]
  simp only [strIndex_rendered (replaceCRLF (goTrim a.title.toList)) (articleDescL a) hmark2]
  rw [drop_rendered]
  exact goTrim_space_desc _ hdback hdfront

/-- Witness for C9's amended theorem at a concrete article whose title
contains a CRLF (exercising the normalization the theorem now covers). -/
theorem spec_c9_witness :
    extractDescriptionL (buildArticleTextL
      { title := "X\r\nY", description := "Hello world", link := "l", url := "",
        imageURL := "", urlToImage := "", content := "", creator := [], author := "" }) =
    articleDescL
      { title := "X\r\nY", description := "Hello world", link := "l", url := "",
        imageURL := "", urlToImage := "", content := "", creator := [], author := "" } :=
  spec_c9_roundtrip_amended _ (by decide) (by decide)

/-- Witness for C10 at the keyless array `[1]` and raw body `"x"`. -/
theorem spec_c10_witness :
    ((∃ q, Json.extractScore (Json.arr [Json.num 1]) = some q) ↔
      (Json.arr [Json.num 1]).hasNumLeaf = true) ∧
    ((Json.arr [Json.num 1]).hasNumLeaf = true →
      ∃ q, Json.extractScore (Json.arr [Json.num 1]) = some q ∧
        parseBiasScore "x" (some (Json.arr [Json.num 1])) = .ok q) ∧
    ((Json.arr [Json.num 1]).hasNumLeaf = false →
      parseBiasScore "x" (some (Json.arr [Json.num 1])) = parseBareFloat (goTrimS "x")) ∧
    parseBiasScore "x" none = parseBareFloat (goTrimS "x") :=
  spec_c10_recursive_leniency "x" (Json.arr [Json.num 1]) (by decide)

end NewsPipeline


